import Mathlib

/-!
Verification of the offer-optimization engine (`optimizer_api.py`).

The engine is embedded shallowly over the rationals:
* Python floats are modelled as `ℚ`; the evaluator's result type is
  `WithBot ℚ`, with `⊥` standing for the Python value `float('-inf')`.
* `np.exp` is transcendental, so the `OfferOptimizer` record carries an
  abstract exponential `exp : ℚ → ℚ`; every theorem about the scoring
  formula holds for an arbitrary `exp`, hence in particular for the real
  exponential.
* The bounded local solver (`scipy.optimize.minimize`, method SLSQP) is an
  external library; it is modelled as an abstract function from the
  maximization objective, the initial guess and the box bounds to an
  optional optimized price (`none` = the solver reported failure).  A
  well-behaved bounded solver returns a point inside its box; that
  assumption is the explicit predicate `SolverRespectsBounds`.  SLSQP's
  reported optimum value `result.fun` equals the objective at `result.x`,
  so the candidate's score `value = -result.fun` is embedded as the
  objective evaluated at the returned price.
-/

/-- `ModelCategory` enum of the source. -/
inductive ModelCategory where
  | retention
  | growth
  | acquisition
  | other
deriving DecidableEq, Repr

/-- `Offer` model: an offer with catalog price, volume and conversion rate. -/
structure Offer where
  offer_name : String
  price : ℚ
  volume : ℚ
  conversion_rate : ℚ
deriving DecidableEq, Repr

/-- Pydantic field constraints on `Offer`: `price > 0`, `volume > 0`,
`conversion_rate ∈ (0, 1]`. -/
def Offer.Valid (o : Offer) : Prop :=
  0 < o.price ∧ 0 < o.volume ∧ 0 < o.conversion_rate ∧ o.conversion_rate ≤ 1

/-- `ModelInput` model: a predictive model with probability, category and offers. -/
structure ModelInput where
  model_name : String
  model_probability : ℚ
  model_category : ModelCategory
  available_offers : List Offer
deriving DecidableEq, Repr

/-- Pydantic field constraints on `ModelInput`: `model_probability ∈ [0, 1]`,
and every available offer is valid. -/
def ModelInput.Valid (m : ModelInput) : Prop :=
  0 ≤ m.model_probability ∧ m.model_probability ≤ 1 ∧
    ∀ o ∈ m.available_offers, o.Valid

/-- `OptimizationRequest` model. -/
structure OptimizationRequest where
  customer_id : String
  copcar : ℚ
  models : List ModelInput
deriving DecidableEq, Repr

/-- Pydantic field constraints on `OptimizationRequest`: `copcar > 0` and
every model is valid. -/
def OptimizationRequest.Valid (r : OptimizationRequest) : Prop :=
  0 < r.copcar ∧ ∀ m ∈ r.models, m.Valid

/-- `OptimizationResponse` model.  `opt_profit` is a `WithBot ℚ` because it
is copied from the running `best_value`, which is initialized to
`float('-inf')`. -/
structure OptimizationResponse where
  customer_id : String
  copcar : ℚ
  opt_profit : WithBot ℚ
  expected_profit : ℚ
  model_name : String
  offer_name : String
  offer_price : ℚ
  actual_offer_price : ℚ
  offer_volume : ℚ
deriving DecidableEq, Repr

/-- The `OfferOptimizer` class.  Its constructor sets only numeric constants
(`k` and the weight table, below); the record carries the abstract
exponential standing for `np.exp`. -/
structure OfferOptimizer where
  exp : ℚ → ℚ

/-- `self.k = 5.0`, the sigmoid steepness parameter. -/
def OfferOptimizer.k (_self : OfferOptimizer) : ℚ := 5.0

/-- `self.weights['profit'] = 1.0`. -/
def OfferOptimizer.w_profit (_self : OfferOptimizer) : ℚ := 1.0

/-- `self.weights['retention'] = 1.5`. -/
def OfferOptimizer.w_retention (_self : OfferOptimizer) : ℚ := 1.5

/-- `self.weights['efficiency'] = 0.3`. -/
def OfferOptimizer.w_efficiency (_self : OfferOptimizer) : ℚ := 0.3

/-- `self.weights['probability'] = 0.5`. -/
def OfferOptimizer.w_probability (_self : OfferOptimizer) : ℚ := 0.5

/-- `sigmoid(x) = 1 / (1 + np.exp(-x))`. -/
def OfferOptimizer.sigmoid (self : OfferOptimizer) (x : ℚ) : ℚ :=
  1 / (1 + self.exp (-x))

/-- `calculate_retention_score`: price-sensitive sigmoid retention score. -/
def OfferOptimizer.calculate_retention_score (self : OfferOptimizer)
    (price copcar churn_prob : ℚ) : ℚ :=
  let dilution_rate := 1 - price / copcar
  (1 - churn_prob) * self.sigmoid (self.k * dilution_rate)

/-- `evaluate_offer`: evaluate a single offer at a candidate price.
Returns `⊥` (the embedding of `float('-inf')`) for an infeasible price. -/
def OfferOptimizer.evaluate_offer (self : OfferOptimizer) (price : ℚ)
    (offer : Offer) (model : ModelInput) (copcar : ℚ) : WithBot ℚ :=
  if model.model_category = ModelCategory.retention then
    if copcar ≤ price then ⊥
    else
      let retention_score :=
        self.calculate_retention_score price copcar (1 - model.model_probability)
      let dilution_rate := 1 - price / copcar
      ↑(self.w_profit * (copcar - price) * offer.conversion_rate +
        self.w_retention * retention_score * copcar +
        self.w_efficiency * (offer.conversion_rate * dilution_rate) +
        self.w_probability * model.model_probability)
  else
    if copcar ≤ price then ⊥
    else
      ↑(self.w_profit * (copcar - price) * offer.conversion_rate +
        self.w_efficiency * (offer.conversion_rate * copcar / max price 0.01) +
        self.w_probability * model.model_probability)

/-- The abstract bounded local solver, standing for
`scipy.optimize.minimize(lambda p: -objective(p), x0, bounds, SLSQP)`:
it receives the maximization objective, the initial guess and the
`(low, high)` box, and returns `some price` when it reports success and
`none` when it fails to converge. -/
abbrev Solver : Type :=
  (ℚ → WithBot ℚ) → ℚ → ℚ × ℚ → Option ℚ

/-- A well-behaved bounded solver: whenever it succeeds, the returned point
lies inside the requested box.  SLSQP honours box constraints. -/
def SolverRespectsBounds (solver : Solver) : Prop :=
  ∀ f x0 lo hi p, solver f x0 (lo, hi) = some p → lo ≤ p ∧ p ≤ hi

/-- The category-dependent price bounds of `optimize_offers`:
retention offers must have dilution, growth offers must be profitable. -/
def priceBounds (category : ModelCategory) (copcar price : ℚ) : ℚ × ℚ :=
  if category = ModelCategory.retention then
    (min (copcar * 0.3) (price * 0.8), min (copcar * 0.9) price)
  else
    (min (copcar * 0.5) (price * 0.8), min (copcar * 0.95) price)

/-- One successfully optimized `(model, offer)` candidate: the optimized
price and its objective value (`value = -result.fun`, i.e. the objective at
the returned price). -/
structure Candidate where
  model : ModelInput
  offer : Offer
  price : ℚ
  value : WithBot ℚ
deriving DecidableEq, Repr

/-- The per-`(model, offer)` body of the `optimize_offers` loop: the hard
retention exclusion (`continue`), the bounds, the midpoint initial guess and
the bounded optimization.  `none` means the offer was skipped or the solver
failed. -/
def candidateOf (self : OfferOptimizer) (solver : Solver) (copcar : ℚ)
    (model : ModelInput) (offer : Offer) : Option Candidate :=
  if model.model_category = ModelCategory.retention ∧ copcar ≤ offer.price then
    none
  else
    let price_bounds := priceBounds model.model_category copcar offer.price
    let initial_price := (price_bounds.1 + price_bounds.2) / 2
    match solver (fun p => self.evaluate_offer p offer model copcar)
        initial_price price_bounds with
    | none => none
    | some p => some ⟨model, offer, p, self.evaluate_offer p offer model copcar⟩

/-- The mutable accumulator of `optimize_offers`: `best_value` starts at
`float('-inf')` (`⊥`), the best `(model, offer, price)` triple starts empty. -/
structure BestAcc where
  best_value : WithBot ℚ
  best : Option (ModelInput × Offer × ℚ)
deriving DecidableEq, Repr

/-- The accumulator update of `optimize_offers`: record the candidate only
when its value strictly exceeds the best value seen so far. -/
def stepCand (acc : BestAcc) (c : Candidate) : BestAcc :=
  if acc.best_value < c.value then ⟨c.value, some (c.model, c.offer, c.price)⟩
  else acc

/-- The successfully optimized candidates, in iteration order: models in
request order, and within each model its offers in that model's order. -/
def cands (self : OfferOptimizer) (solver : Solver)
    (req : OptimizationRequest) : List Candidate :=
  req.models.flatMap fun m =>
    m.available_offers.filterMap (candidateOf self solver req.copcar m)

/-- The nested loop of `optimize_offers`, as it appears in the source:
fold over models, and within each model over its offers, skipping the
offers for which `candidateOf` produced nothing. -/
def bestAcc (self : OfferOptimizer) (solver : Solver)
    (req : OptimizationRequest) : BestAcc :=
  req.models.foldl
    (fun acc m =>
      m.available_offers.foldl
        (fun acc o =>
          match candidateOf self solver req.copcar m o with
          | none => acc
          | some c => stepCand acc c)
        acc)
    ⟨⊥, none⟩

/-- The message of the `ValueError` raised when no suitable offer is found. -/
def noSuitableOfferMsg : String := "No suitable offer found"

/-- `optimize_offers`: run the nested loop, fail when no candidate was ever
recorded, and otherwise assemble the response, computing `expected_profit`
from the selected offer's original catalog price. -/
def OfferOptimizer.optimize_offers (self : OfferOptimizer) (solver : Solver)
    (request : OptimizationRequest) : Except String OptimizationResponse :=
  let acc := bestAcc self solver request
  match acc.best with
  | none => Except.error noSuitableOfferMsg
  | some (best_model, best_offer, best_price) =>
      let expected_profit := request.copcar - best_offer.price
      Except.ok
        { customer_id := request.customer_id
          copcar := request.copcar
          opt_profit := acc.best_value
          expected_profit := expected_profit
          model_name := best_model.model_name
          offer_name := best_offer.offer_name
          offer_price := best_price
          actual_offer_price := best_offer.price
          offer_volume := best_offer.volume }

/-! ### Concrete instruments used by the witnesses -/

/-- A concrete abstract exponential (`exp x = 1` throughout); the scoring
theorems hold for every `exp`, so any choice instantiates them. -/
def expOne : OfferOptimizer := ⟨fun _ => 1⟩

/-- A concrete deterministic bounded solver: return the lower bound when the
box is well-formed, fail otherwise.  It respects bounds. -/
def lowSolver : Solver := fun _ _ pb => if pb.1 ≤ pb.2 then some pb.1 else none

/-! ### The objective evaluator (claims about `evaluate_offer`) -/

/-- C4: `evaluate_offer` is total (a Lean function by construction; the only
division with a variable denominator is guarded by `max price 0.01`, and the
divisions by `copcar` are total on `ℚ`), and it returns negative infinity
(`⊥`) if and only if `price ≥ copcar`, in both the retention and the
non-retention branch. -/
theorem evaluate_offer_bot_iff (self : OfferOptimizer) (price : ℚ)
    (offer : Offer) (model : ModelInput) (copcar : ℚ) :
    self.evaluate_offer price offer model copcar = ⊥ ↔ copcar ≤ price := by
  unfold OfferOptimizer.evaluate_offer
  split_ifs with h1 h2 h3
  · exact iff_of_true rfl h2
  · exact iff_of_false WithBot.coe_ne_bot h2
  · exact iff_of_true rfl h3
  · exact iff_of_false WithBot.coe_ne_bot h3

/-- C2: in the retention branch, for a feasible price, `evaluate_offer`
returns exactly
`w_profit·(copcar − price)·conversion_rate + w_retention·retention_score·copcar
 + w_efficiency·conversion_rate·dilution_rate + w_probability·probability`,
with `retention_score = (1 − churn_prob) · sigmoid(5 · dilution_rate)`,
`churn_prob = 1 − model.probability`, `sigmoid(x) = 1/(1+exp(−x))`,
`dilution_rate = 1 − price/copcar`, and weights `1.0, 1.5, 0.3, 0.5`. -/
theorem evaluate_offer_retention_formula (self : OfferOptimizer)
    (price copcar : ℚ) (offer : Offer) (model : ModelInput)
    (hcat : model.model_category = ModelCategory.retention)
    (hlt : price < copcar) :
    self.evaluate_offer price offer model copcar =
      ↑(1.0 * (copcar - price) * offer.conversion_rate +
        1.5 * ((1 - (1 - model.model_probability)) *
          (1 / (1 + self.exp (-(5.0 * (1 - price / copcar)))))) * copcar +
        0.3 * (offer.conversion_rate * (1 - price / copcar)) +
        0.5 * model.model_probability) := by
  unfold OfferOptimizer.evaluate_offer
  rw [if_pos hcat, if_neg (not_le.mpr hlt)]
  rfl

/-- Witness for C2 at `price = 1`, `copcar = 2`, probability `1/2`. -/
theorem evaluate_offer_retention_formula_witness :
    ((⟨"m", 1/2, ModelCategory.retention, []⟩ : ModelInput).model_category =
        ModelCategory.retention ∧ (1 : ℚ) < 2) ∧
    expOne.evaluate_offer 1 ⟨"o", 3, 4, 1/2⟩
        ⟨"m", 1/2, ModelCategory.retention, []⟩ 2 =
      ↑(1.0 * ((2 : ℚ) - 1) * (⟨"o", 3, 4, 1/2⟩ : Offer).conversion_rate +
        1.5 * ((1 - (1 - (⟨"m", 1/2, ModelCategory.retention, []⟩ : ModelInput).model_probability)) *
          (1 / (1 + expOne.exp (-(5.0 * (1 - 1 / 2)))))) * 2 +
        0.3 * ((⟨"o", 3, 4, 1/2⟩ : Offer).conversion_rate * (1 - 1 / 2)) +
        0.5 * (⟨"m", 1/2, ModelCategory.retention, []⟩ : ModelInput).model_probability) :=
  ⟨⟨rfl, by norm_num⟩,
    evaluate_offer_retention_formula expOne 1 2 ⟨"o", 3, 4, 1/2⟩
      ⟨"m", 1/2, ModelCategory.retention, []⟩ rfl (by norm_num)⟩

/-- C3: in the non-retention branch, for a feasible price, `evaluate_offer`
returns exactly
`w_profit·(copcar − price)·conversion_rate
 + w_efficiency·conversion_rate·copcar/max(price, 0.01)
 + w_probability·probability` with weights `1.0, 0.3, 0.5`; the right-hand
side does not mention the category, so `growth`, `acquisition` and `other`
all give the same value at every input. -/
theorem evaluate_offer_nonretention_formula (self : OfferOptimizer)
    (price copcar prob : ℚ) (offer : Offer) (name : String)
    (offers : List Offer) (category : ModelCategory)
    (hcat : category ≠ ModelCategory.retention) (hlt : price < copcar) :
    self.evaluate_offer price offer ⟨name, prob, category, offers⟩ copcar =
      ↑(1.0 * (copcar - price) * offer.conversion_rate +
        0.3 * (offer.conversion_rate * copcar / max price 0.01) +
        0.5 * prob) := by
  unfold OfferOptimizer.evaluate_offer
  rw [if_neg hcat, if_neg (not_le.mpr hlt)]
  rfl

/-- Witness for C3 at category `growth`, `price = 1`, `copcar = 2`. -/
theorem evaluate_offer_nonretention_formula_witness :
    (ModelCategory.growth ≠ ModelCategory.retention ∧ (1 : ℚ) < 2) ∧
    expOne.evaluate_offer 1 ⟨"o", 3, 4, 1/2⟩
        ⟨"m", 1/2, ModelCategory.growth, []⟩ 2 =
      ↑(1.0 * ((2 : ℚ) - 1) * (⟨"o", 3, 4, 1/2⟩ : Offer).conversion_rate +
        0.3 * ((⟨"o", 3, 4, 1/2⟩ : Offer).conversion_rate * 2 / max 1 0.01) +
        0.5 * (1/2)) :=
  ⟨⟨by decide, by norm_num⟩,
    evaluate_offer_nonretention_formula expOne 1 2 (1/2) ⟨"o", 3, 4, 1/2⟩
      "m" [] ModelCategory.growth (by decide) (by norm_num)⟩

/-! ### The selection fold -/

/-- Unfolding `stepCand` when the candidate beats the running best. -/
theorem stepCand_pos {acc : BestAcc} {c : Candidate}
    (h : acc.best_value < c.value) :
    stepCand acc c = ⟨c.value, some (c.model, c.offer, c.price)⟩ := by
  unfold stepCand; rw [if_pos h]

/-- Unfolding `stepCand` when the candidate does not beat the running best. -/
theorem stepCand_neg {acc : BestAcc} {c : Candidate}
    (h : ¬acc.best_value < c.value) :
    stepCand acc c = acc := by
  unfold stepCand; rw [if_neg h]

/-- The running best value never decreases along the fold. -/
theorem foldl_stepCand_le (l : List Candidate) (acc : BestAcc) :
    acc.best_value ≤ (l.foldl stepCand acc).best_value := by
  induction l generalizing acc with
  | nil => exact le_refl _
  | cons c l ih =>
      refine le_trans ?_ (ih (stepCand acc c))
      unfold stepCand
      split_ifs with h
      · exact le_of_lt h
      · exact le_refl _

/-- Every candidate seen by the fold is bounded by the final best value. -/
theorem foldl_stepCand_ub (l : List Candidate) (acc : BestAcc) :
    ∀ c ∈ l, c.value ≤ (l.foldl stepCand acc).best_value := by
  induction l generalizing acc with
  | nil => intro c hc; cases hc
  | cons d l ih =>
      intro c hc
      rcases List.mem_cons.mp hc with rfl | hc
      · refine le_trans ?_ (foldl_stepCand_le l (stepCand acc c))
        unfold stepCand
        split_ifs with h
        · exact le_refl _
        · exact le_of_not_lt h
      · exact ih (stepCand acc d) c hc

/-- If the fold ends with no recorded best, no candidate ever beat the
initial best value and the accumulator is unchanged. -/
theorem foldl_stepCand_best_none (l : List Candidate) (acc : BestAcc)
    (h : (l.foldl stepCand acc).best = none) :
    l.foldl stepCand acc = acc ∧ ∀ c ∈ l, ¬acc.best_value < c.value := by
  induction l generalizing acc with
  | nil => exact ⟨rfl, fun c hc => absurd hc (List.not_mem_nil c)⟩
  | cons d l ih =>
      rw [List.foldl_cons] at h ⊢
      by_cases hd : acc.best_value < d.value
      · exfalso
        have hstep : stepCand acc d = ⟨d.value, some (d.model, d.offer, d.price)⟩ := by
          unfold stepCand; rw [if_pos hd]
        rw [hstep] at h
        obtain ⟨heq, -⟩ := ih _ h
        rw [heq] at h
        cases h
      · have hstep : stepCand acc d = acc := by
          unfold stepCand; rw [if_neg hd]
        rw [hstep] at h ⊢
        obtain ⟨heq, hall⟩ := ih _ h
        refine ⟨heq, fun c hc => ?_⟩
        rcases List.mem_cons.mp hc with rfl | hc
        · exact hd
        · exact hall c hc

/-- Starting from the empty accumulator, a fold that records a best triple
records the *first* candidate attaining the strictly greatest value: all
earlier candidates are strictly below it, all candidates are at most it. -/
theorem foldl_stepCand_first_max (l : List Candidate)
    (t : ModelInput × Offer × ℚ)
    (h : (l.foldl stepCand ⟨⊥, none⟩).best = some t) :
    ∃ l₁ c l₂, l = l₁ ++ c :: l₂ ∧ t = (c.model, c.offer, c.price) ∧
      (l.foldl stepCand ⟨⊥, none⟩).best_value = c.value ∧
      (∀ c' ∈ l₁, c'.value < c.value) ∧ ∀ c' ∈ l, c'.value ≤ c.value := by
  induction l using List.reverseRecOn with
  | nil => cases h
  | append_singleton l d ih =>
      rw [List.foldl_append, List.foldl_cons, List.foldl_nil] at h ⊢
      by_cases hd : (l.foldl stepCand ⟨⊥, none⟩).best_value < d.value
      · rw [stepCand_pos hd] at h ⊢
        refine ⟨l, d, [], rfl, ?_, rfl, ?_, ?_⟩
        · exact (Option.some_inj.mp h).symm
        · intro c' hc'
          exact lt_of_le_of_lt (foldl_stepCand_ub l _ c' hc') hd
        · intro c' hc'
          rcases List.mem_append.mp hc' with hc' | hc'
          · exact le_of_lt (lt_of_le_of_lt (foldl_stepCand_ub l _ c' hc') hd)
          · rw [List.mem_singleton.mp hc']
      · rw [stepCand_neg hd] at h ⊢
        obtain ⟨l₁, c, l₂, hsplit, ht, hbv, hlt, hub⟩ := ih h
        refine ⟨l₁, c, l₂ ++ [d], ?_, ht, hbv, hlt, ?_⟩
        · rw [hsplit]; simp
        · intro c' hc'
          rcases List.mem_append.mp hc' with hc' | hc'
          · exact hub c' hc'
          · rw [List.mem_singleton.mp hc']
            rw [← hbv]
            exact le_of_not_lt hd

/-- The inner offer loop of `optimize_offers` is the fold of `stepCand` over
the successfully optimized candidates of that model. -/
theorem inner_foldl_eq (self : OfferOptimizer) (solver : Solver) (copcar : ℚ)
    (m : ModelInput) (offers : List Offer) (acc : BestAcc) :
    offers.foldl
        (fun acc o =>
          match candidateOf self solver copcar m o with
          | none => acc
          | some c => stepCand acc c)
        acc =
      (offers.filterMap (candidateOf self solver copcar m)).foldl stepCand acc := by
  induction offers generalizing acc with
  | nil => rfl
  | cons o offers ih =>
      rw [List.foldl_cons, List.filterMap_cons]
      cases h : candidateOf self solver copcar m o with
      | none => exact ih acc
      | some c => exact ih (stepCand acc c)

/-- The nested loop of `optimize_offers` is the fold of `stepCand` over the
flattened candidate sequence (models in request order, offers in model
order). -/
theorem bestAcc_eq_foldl (self : OfferOptimizer) (solver : Solver)
    (req : OptimizationRequest) :
    bestAcc self solver req = (cands self solver req).foldl stepCand ⟨⊥, none⟩ := by
  unfold bestAcc cands
  generalize (⟨⊥, none⟩ : BestAcc) = acc
  induction req.models generalizing acc with
  | nil => rfl
  | cons m ms ih =>
      rw [List.foldl_cons, List.flatMap_cons, List.foldl_append,
        inner_foldl_eq]
      exact ih _

/-- Membership in the candidate sequence: a candidate comes from some model
of the request and some offer of that model. -/
theorem mem_cands_iff {self : OfferOptimizer} {solver : Solver}
    {req : OptimizationRequest} {c : Candidate} :
    c ∈ cands self solver req ↔
      ∃ m ∈ req.models, ∃ o ∈ m.available_offers,
        candidateOf self solver req.copcar m o = some c := by
  unfold cands
  simp only [List.mem_flatMap, List.mem_filterMap]

/-- Inversion of the loop body: a successfully produced candidate was not
skipped by the hard retention exclusion, its price was returned by the
bounded solver over the category bounds, and its value is the objective at
that price. -/
theorem candidateOf_some {self : OfferOptimizer} {solver : Solver}
    {copcar : ℚ} {m : ModelInput} {o : Offer} {c : Candidate}
    (h : candidateOf self solver copcar m o = some c) :
    c.model = m ∧ c.offer = o ∧
    ¬(m.model_category = ModelCategory.retention ∧ copcar ≤ o.price) ∧
    solver (fun p => self.evaluate_offer p o m copcar)
        (((priceBounds m.model_category copcar o.price).1 +
          (priceBounds m.model_category copcar o.price).2) / 2)
        (priceBounds m.model_category copcar o.price) = some c.price ∧
    c.value = self.evaluate_offer c.price o m copcar := by
  unfold candidateOf at h
  split_ifs at h with hskip
  dsimp only at h
  cases hsol : solver (fun p => self.evaluate_offer p o m copcar)
      (((priceBounds m.model_category copcar o.price).1 +
        (priceBounds m.model_category copcar o.price).2) / 2)
      (priceBounds m.model_category copcar o.price) with
  | none =>
      rw [hsol] at h
      cases h
  | some p =>
      rw [hsol] at h
      injection h with h
      subst h
      exact ⟨rfl, rfl, hskip, rfl, rfl⟩

/-- A recorded best triple is the first-seen strict maximum over the
candidate sequence, and its value is the objective at its price. -/
theorem bestAcc_some_elim {self : OfferOptimizer} {solver : Solver}
    {req : OptimizationRequest} {m : ModelInput} {o : Offer} {p : ℚ}
    (h : (bestAcc self solver req).best = some (m, o, p)) :
    m ∈ req.models ∧ o ∈ m.available_offers ∧
      ¬(m.model_category = ModelCategory.retention ∧ req.copcar ≤ o.price) ∧
      solver (fun q => self.evaluate_offer q o m req.copcar)
        (((priceBounds m.model_category req.copcar o.price).1 +
          (priceBounds m.model_category req.copcar o.price).2) / 2)
        (priceBounds m.model_category req.copcar o.price) = some p ∧
      (bestAcc self solver req).best_value =
        self.evaluate_offer p o m req.copcar := by
  rw [bestAcc_eq_foldl] at h
  obtain ⟨l₁, c, l₂, hsplit, ht, hbv, -, -⟩ := foldl_stepCand_first_max _ _ h
  injection ht with hm ht2
  injection ht2 with ho hp
  have hc_mem : c ∈ cands self solver req := by
    rw [hsplit]
    exact List.mem_append_right _ (List.mem_cons_self _ _)
  obtain ⟨m', hm', o', ho', hcand⟩ := mem_cands_iff.mp hc_mem
  obtain ⟨hcm, hco, hskip, hsol, hval⟩ := candidateOf_some hcand
  have heqm : m = m' := hm.trans hcm
  have heqo : o = o' := ho.trans hco
  subst heqm
  subst heqo
  refine ⟨hm', ho', hskip, ?_, ?_⟩
  · rw [hp]
    exact hsol
  · rw [bestAcc_eq_foldl, hbv, hval, hp]

/-- Inversion of a successful `optimize_offers` call: the response is
assembled from the recorded best triple of the nested loop. -/
theorem optimize_offers_ok_elim {self : OfferOptimizer} {solver : Solver}
    {req : OptimizationRequest} {resp : OptimizationResponse}
    (hok : self.optimize_offers solver req = Except.ok resp) :
    ∃ m o p, (bestAcc self solver req).best = some (m, o, p) ∧
      resp.customer_id = req.customer_id ∧ resp.copcar = req.copcar ∧
      resp.opt_profit = (bestAcc self solver req).best_value ∧
      resp.expected_profit = req.copcar - o.price ∧
      resp.model_name = m.model_name ∧ resp.offer_name = o.offer_name ∧
      resp.offer_price = p ∧ resp.actual_offer_price = o.price ∧
      resp.offer_volume = o.volume := by
  unfold OfferOptimizer.optimize_offers at hok
  dsimp only at hok
  cases hbest : (bestAcc self solver req).best with
  | none =>
      rw [hbest] at hok
      cases hok
  | some t =>
      obtain ⟨m, o, p⟩ := t
      rw [hbest] at hok
      injection hok with hok
      subst hok
      exact ⟨m, o, p, rfl, rfl, rfl, rfl, rfl, rfl, rfl, rfl, rfl, rfl⟩

/-- `optimize_offers` fails (with the no-suitable-offer message) exactly
when the nested loop recorded no best triple. -/
theorem optimize_offers_error_iff {self : OfferOptimizer} {solver : Solver}
    {req : OptimizationRequest} :
    self.optimize_offers solver req = Except.error noSuitableOfferMsg ↔
      (bestAcc self solver req).best = none := by
  unfold OfferOptimizer.optimize_offers
  dsimp only
  cases hbest : (bestAcc self solver req).best with
  | none => simp [hbest]
  | some t =>
      obtain ⟨m, o, p⟩ := t
      simp [hbest]

/-- For positive `copcar` and offer price, the computed price bounds have a
strictly positive lower end, and their upper end is strictly below `copcar`,
in both category branches. -/
theorem priceBounds_pos_lt (category : ModelCategory) {copcar price : ℚ}
    (hcop : 0 < copcar) (hprice : 0 < price) :
    0 < (priceBounds category copcar price).1 ∧
      (priceBounds category copcar price).2 < copcar := by
  unfold priceBounds
  split_ifs with h
  · exact ⟨lt_min (mul_pos hcop (by norm_num)) (mul_pos hprice (by norm_num)),
      lt_of_le_of_lt (min_le_left _ _) (by nlinarith)⟩
  · exact ⟨lt_min (mul_pos hcop (by norm_num)) (mul_pos hprice (by norm_num)),
      lt_of_le_of_lt (min_le_left _ _) (by nlinarith)⟩

/-- Under a bounds-respecting solver and positive `copcar`, every successful
candidate has a finite objective value (its price is feasible). -/
theorem cands_value_ne_bot {self : OfferOptimizer} {solver : Solver}
    {req : OptimizationRequest} (hcop : 0 < req.copcar)
    (hsolver : SolverRespectsBounds solver) :
    ∀ c ∈ cands self solver req, 0 < c.offer.price → c.value ≠ ⊥ := by
  intro c hc hprice
  obtain ⟨m, hm, o, ho, hcand⟩ := mem_cands_iff.mp hc
  obtain ⟨hcm, hco, -, hsol, hval⟩ := candidateOf_some hcand
  obtain ⟨-, hhi⟩ := hsolver _ _ _ _ _ hsol
  rw [hco] at hprice
  obtain ⟨-, hlt⟩ := priceBounds_pos_lt m.model_category hcop hprice
  intro hbot
  rw [hval] at hbot
  have hge := (evaluate_offer_bot_iff self c.price o m req.copcar).mp hbot
  exact absurd hge (not_le.mpr (lt_of_le_of_lt hhi hlt))

/-! ### Claims about `optimize_offers` -/

/-- C1: a successful `optimize_offers` call returns exactly the candidate
whose successfully optimized objective value is the strict global maximum
over the candidate sequence (models in request order, offers in model
order): every earlier candidate scores strictly less (so on ties the
first-seen candidate wins), and no candidate scores more. -/
theorem optimize_offers_first_strict_max (self : OfferOptimizer)
    (solver : Solver) (req : OptimizationRequest) (resp : OptimizationResponse)
    (hok : self.optimize_offers solver req = Except.ok resp) :
    ∃ l₁ c l₂, cands self solver req = l₁ ++ c :: l₂ ∧
      resp.model_name = c.model.model_name ∧
      resp.offer_name = c.offer.offer_name ∧
      resp.offer_price = c.price ∧
      resp.opt_profit = c.value ∧
      (∀ c' ∈ l₁, c'.value < c.value) ∧
      ∀ c' ∈ cands self solver req, c'.value ≤ c.value := by
  obtain ⟨m, o, p, hbest, -, -, hopt, -, hmn, hon, hop, -, -⟩ :=
    optimize_offers_ok_elim hok
  rw [bestAcc_eq_foldl] at hbest
  obtain ⟨l₁, c, l₂, hsplit, ht, hbv, hearly, hub⟩ :=
    foldl_stepCand_first_max _ _ hbest
  injection ht with hm ht2
  injection ht2 with ho hp
  refine ⟨l₁, c, l₂, hsplit, ?_, ?_, ?_, ?_, hearly, hub⟩
  · rw [hmn, hm]
  · rw [hon, ho]
  · rw [hop, hp]
  · rw [hopt, bestAcc_eq_foldl, hbv]

/-- C5: a retention-category offer whose original catalog price is at least
`copcar` is skipped before any optimization attempt, so it can never be the
selected `(model, offer)` pair: whenever a retention pair is selected, its
original price is strictly below `copcar`. -/
theorem retention_offer_never_selected (self : OfferOptimizer)
    (solver : Solver) (req : OptimizationRequest) (m : ModelInput) (o : Offer)
    (p : ℚ) (hbest : (bestAcc self solver req).best = some (m, o, p))
    (hcat : m.model_category = ModelCategory.retention) :
    o.price < req.copcar ∧
      ∀ m' o', m'.model_category = ModelCategory.retention →
        req.copcar ≤ o'.price →
        candidateOf self solver req.copcar m' o' = none := by
  obtain ⟨-, -, hskip, -, -⟩ := bestAcc_some_elim hbest
  constructor
  · by_contra hge
    exact hskip ⟨hcat, le_of_not_lt hge⟩
  · intro m' o' hm' ho'
    unfold candidateOf
    rw [if_pos ⟨hm', ho'⟩]

/-- C6: for a valid request and a bounds-respecting solver, the optimized
price of a successful result lies within the category bounds computed for
the selected candidate, and satisfies `0 < offer_price ≤ copcar`. -/
theorem optimize_offers_bounds_containment (self : OfferOptimizer)
    (solver : Solver) (req : OptimizationRequest) (resp : OptimizationResponse)
    (hreq : req.Valid) (hsolver : SolverRespectsBounds solver)
    (hok : self.optimize_offers solver req = Except.ok resp) :
    ∃ m ∈ req.models, ∃ o ∈ m.available_offers,
      resp.model_name = m.model_name ∧ resp.offer_name = o.offer_name ∧
      resp.actual_offer_price = o.price ∧
      (priceBounds m.model_category req.copcar o.price).1 ≤ resp.offer_price ∧
      resp.offer_price ≤ (priceBounds m.model_category req.copcar o.price).2 ∧
      0 < resp.offer_price ∧ resp.offer_price ≤ resp.copcar := by
  obtain ⟨m, o, p, hbest, -, hcop, -, -, hmn, hon, hop, hact, -⟩ :=
    optimize_offers_ok_elim hok
  obtain ⟨hm, ho, -, hsol, -⟩ := bestAcc_some_elim hbest
  obtain ⟨hlo, hhi⟩ := hsolver _ _ _ _ _ hsol
  have hcop0 : 0 < req.copcar := hreq.1
  have hoprice : 0 < o.price := ((hreq.2 m hm).2.2 o ho).1
  obtain ⟨hpos, hltcop⟩ := priceBounds_pos_lt m.model_category hcop0 hoprice
  refine ⟨m, hm, o, ho, hmn, hon, hact, ?_, ?_, ?_, ?_⟩
  · rw [hop]; exact hlo
  · rw [hop]; exact hhi
  · rw [hop]; exact lt_of_lt_of_le hpos hlo
  · rw [hop, hcop]; exact le_of_lt (lt_of_le_of_lt hhi hltcop)

/-- C7: for every successful result, `expected_profit` equals `copcar`
minus the selected offer's original catalog price (`actual_offer_price`),
exactly. -/
theorem expected_profit_identity (self : OfferOptimizer) (solver : Solver)
    (req : OptimizationRequest) (resp : OptimizationResponse)
    (hok : self.optimize_offers solver req = Except.ok resp) :
    resp.expected_profit = resp.copcar - resp.actual_offer_price := by
  obtain ⟨m, o, p, -, -, hcop, -, hexp, -, -, -, hact, -⟩ :=
    optimize_offers_ok_elim hok
  rw [hexp, hcop, hact]

/-- C8: for a valid request and a bounds-respecting solver, `optimize_offers`
fails with the no-suitable-offer condition exactly when no `(model, offer)`
pair produced a successful bounded optimization (every pair was skipped by
the hard exclusion or failed to converge); otherwise it returns exactly one
complete result. -/
theorem optimize_offers_fails_iff_no_candidate (self : OfferOptimizer)
    (solver : Solver) (req : OptimizationRequest) (hreq : req.Valid)
    (hsolver : SolverRespectsBounds solver) :
    (self.optimize_offers solver req = Except.error noSuitableOfferMsg ↔
      cands self solver req = []) ∧
    (cands self solver req ≠ [] →
      ∃ resp, self.optimize_offers solver req = Except.ok resp) := by
  have hmain : (bestAcc self solver req).best = none ↔
      cands self solver req = [] := by
    constructor
    · intro hnone
      rw [bestAcc_eq_foldl] at hnone
      obtain ⟨-, hall⟩ := foldl_stepCand_best_none _ _ hnone
      cases hcands : cands self solver req with
      | nil => rfl
      | cons c rest =>
          exfalso
          have hc : c ∈ cands self solver req := by
            rw [hcands]; exact List.mem_cons_self _ _
          obtain ⟨m, hm, o, ho, hcand⟩ := mem_cands_iff.mp hc
          obtain ⟨-, hco, -, -, -⟩ := candidateOf_some hcand
          have hprice : 0 < c.offer.price := by
            rw [hco]; exact (((hreq.2 m hm).2.2) o ho).1
          have hne := cands_value_ne_bot hreq.1 hsolver c hc hprice
          have hnl : ¬(⊥ : WithBot ℚ) < c.value := hall c hc
          rw [WithBot.bot_lt_iff_ne_bot, not_not] at hnl
          exact hne hnl
    · intro hnil
      rw [bestAcc_eq_foldl, hnil]
      rfl
  constructor
  · rw [optimize_offers_error_iff]
    exact hmain
  · intro hne
    have hbestne : (bestAcc self solver req).best ≠ none :=
      fun h => hne (hmain.mp h)
    cases hb : (bestAcc self solver req).best with
    | none => exact absurd hb hbestne
    | some t =>
        obtain ⟨m, o, p⟩ := t
        refine ⟨⟨req.customer_id, req.copcar, (bestAcc self solver req).best_value,
          req.copcar - o.price, m.model_name, o.offer_name, p, o.price,
          o.volume⟩, ?_⟩
        unfold OfferOptimizer.optimize_offers
        dsimp only
        rw [hb]

/-- C9: `optimize_offers` is deterministic: with the same deterministic
solver, two calls on identical request data return identical results, in
particular the same `model_name`, `offer_name` and `offer_price`. -/
theorem optimize_offers_deterministic (self : OfferOptimizer)
    (solver : Solver) (r₁ r₂ : OptimizationRequest) (heq : r₁ = r₂) :
    self.optimize_offers solver r₁ = self.optimize_offers solver r₂ ∧
      ∀ resp₁ resp₂, self.optimize_offers solver r₁ = Except.ok resp₁ →
        self.optimize_offers solver r₂ = Except.ok resp₂ →
        resp₁.model_name = resp₂.model_name ∧
        resp₁.offer_name = resp₂.offer_name ∧
        resp₁.offer_price = resp₂.offer_price := by
  subst heq
  refine ⟨rfl, ?_⟩
  intro resp₁ resp₂ h₁ h₂
  rw [h₁] at h₂
  injection h₂ with h₂
  subst h₂
  exact ⟨rfl, rfl, rfl⟩

/-! ### Concrete scenarios -/

/-- The growth and retention categories are distinct. -/
theorem growth_ne_retention :
    ModelCategory.growth ≠ ModelCategory.retention := by decide

/-- `lowSolver` respects its box. -/
theorem lowSolver_respects : SolverRespectsBounds lowSolver := by
  intro f x0 lo hi p h
  unfold lowSolver at h
  split_ifs at h with hle
  injection h with h
  subst h
  exact ⟨le_refl _, hle⟩

/-- A growth offer priced above `copcar = 100`. -/
def c10Offer : Offer := ⟨"Big Offer", 150, 10, 1/2⟩

/-- A growth model holding `c10Offer`. -/
def c10Model : ModelInput := ⟨"growth_model", 1/2, ModelCategory.growth, [c10Offer]⟩

/-- A request whose only offer is a growth offer priced above `copcar`. -/
def c10Req : OptimizationRequest := ⟨"CUST", 100, [c10Model]⟩

/-- The response `optimize_offers` produces on `c10Req` with `lowSolver`. -/
def c10Resp : OptimizationResponse :=
  ⟨"CUST", 100, ((511/20 : ℚ) : WithBot ℚ), -50, "growth_model", "Big Offer",
    50, 150, 10⟩

/-- `c10Req` satisfies the boundary validator's field constraints. -/
theorem c10Req_valid : c10Req.Valid := by
  refine ⟨by norm_num [c10Req], ?_⟩
  intro m hm
  simp only [c10Req, List.mem_singleton] at hm
  subst hm
  refine ⟨by norm_num [c10Model], by norm_num [c10Model], ?_⟩
  intro o ho
  simp only [c10Model, List.mem_singleton] at ho
  subst ho
  exact ⟨by norm_num [c10Offer], by norm_num [c10Offer],
    by norm_num [c10Offer], by norm_num [c10Offer]⟩

/-- Evaluation of the engine on `c10Req`: the high-priced growth offer is
optimized (not excluded) and selected, at optimized price `50`. -/
theorem c10_ok : expOne.optimize_offers lowSolver c10Req = Except.ok c10Resp := by
  norm_num [OfferOptimizer.optimize_offers, bestAcc, candidateOf, priceBounds,
    stepCand, lowSolver, expOne, c10Req, c10Model, c10Offer, c10Resp,
    OfferOptimizer.evaluate_offer, OfferOptimizer.w_profit,
    OfferOptimizer.w_efficiency, OfferOptimizer.w_probability,
    List.foldl, min_def, max_def, growth_ne_retention, WithBot.bot_lt_coe]

/-- The loop body succeeds on the high-priced growth offer. -/
theorem c10_cand : candidateOf expOne lowSolver c10Req.copcar c10Model c10Offer =
    some ⟨c10Model, c10Offer, 50, ((511/20 : ℚ) : WithBot ℚ)⟩ := by
  norm_num [candidateOf, priceBounds, lowSolver, expOne, c10Req, c10Model,
    c10Offer, OfferOptimizer.evaluate_offer, OfferOptimizer.w_profit,
    OfferOptimizer.w_efficiency, OfferOptimizer.w_probability,
    min_def, max_def, growth_ne_retention]

/-- A retention offer priced below `copcar = 10`. -/
def retOffer : Offer := ⟨"Ret Offer", 8, 5, 1/5⟩

/-- A retention model holding `retOffer`. -/
def retModel : ModelInput := ⟨"churn", 4/5, ModelCategory.retention, [retOffer]⟩

/-- A request with a single feasible retention offer. -/
def retReq : OptimizationRequest := ⟨"R", 10, [retModel]⟩

/-- The response `optimize_offers` produces on `retReq` with `lowSolver`. -/
def retResp : OptimizationResponse :=
  ⟨"R", 10, ((3921/500 : ℚ) : WithBot ℚ), 2, "churn", "Ret Offer", 3, 8, 5⟩

/-- `retReq` satisfies the boundary validator's field constraints. -/
theorem retReq_valid : retReq.Valid := by
  refine ⟨by norm_num [retReq], ?_⟩
  intro m hm
  simp only [retReq, List.mem_singleton] at hm
  subst hm
  refine ⟨by norm_num [retModel], by norm_num [retModel], ?_⟩
  intro o ho
  simp only [retModel, List.mem_singleton] at ho
  subst ho
  exact ⟨by norm_num [retOffer], by norm_num [retOffer],
    by norm_num [retOffer], by norm_num [retOffer]⟩

/-- Evaluation of the engine on `retReq`: the retention offer is selected at
optimized price `3`. -/
theorem ret_ok : expOne.optimize_offers lowSolver retReq = Except.ok retResp := by
  norm_num [OfferOptimizer.optimize_offers, bestAcc, candidateOf, priceBounds,
    stepCand, lowSolver, expOne, retReq, retModel, retOffer, retResp,
    OfferOptimizer.evaluate_offer, OfferOptimizer.calculate_retention_score,
    OfferOptimizer.sigmoid, OfferOptimizer.k, OfferOptimizer.w_profit,
    OfferOptimizer.w_retention, OfferOptimizer.w_efficiency,
    OfferOptimizer.w_probability, List.foldl, min_def, max_def,
    WithBot.bot_lt_coe]

/-- The loop on `retReq` records the retention triple at price `3`. -/
theorem ret_best : (bestAcc expOne lowSolver retReq).best =
    some (retModel, retOffer, 3) := by
  norm_num [bestAcc, candidateOf, priceBounds, stepCand, lowSolver, expOne,
    retReq, retModel, retOffer, OfferOptimizer.evaluate_offer,
    OfferOptimizer.calculate_retention_score, OfferOptimizer.sigmoid,
    OfferOptimizer.k, OfferOptimizer.w_profit, OfferOptimizer.w_retention,
    OfferOptimizer.w_efficiency, OfferOptimizer.w_probability, List.foldl,
    min_def, max_def, WithBot.bot_lt_coe]

/-- C10: a non-retention offer whose original catalog price is at least
`copcar` is not excluded before optimization (only retention offers are):
on `c10Req` — a valid request, optimized by a bounds-respecting solver —
such an offer is successfully optimized and selected, and the returned
result has `actual_offer_price ≥ copcar`, hence `expected_profit ≤ 0`. -/
theorem nonretention_high_price_offer_selected :
    SolverRespectsBounds lowSolver ∧ c10Req.Valid ∧
    (∃ m ∈ c10Req.models, ∃ o ∈ m.available_offers,
      m.model_category ≠ ModelCategory.retention ∧ c10Req.copcar ≤ o.price ∧
      candidateOf expOne lowSolver c10Req.copcar m o ≠ none) ∧
    ∃ resp, expOne.optimize_offers lowSolver c10Req = Except.ok resp ∧
      resp.copcar ≤ resp.actual_offer_price ∧ resp.expected_profit ≤ 0 := by
  refine ⟨lowSolver_respects, c10Req_valid,
    ⟨c10Model, List.mem_singleton.mpr rfl, c10Offer, List.mem_singleton.mpr rfl,
      growth_ne_retention, by norm_num [c10Req, c10Offer], ?_⟩,
    c10Resp, c10_ok, by norm_num [c10Resp], by norm_num [c10Resp]⟩
  rw [c10_cand]
  exact Option.some_ne_none _

/-! ### Witnesses for the hypothesised claims -/

/-- Witness for C1 on the concrete request `c10Req`. -/
theorem optimize_offers_first_strict_max_witness :
    (expOne.optimize_offers lowSolver c10Req = Except.ok c10Resp) ∧
    (∃ l₁ c l₂, cands expOne lowSolver c10Req = l₁ ++ c :: l₂ ∧
      c10Resp.model_name = c.model.model_name ∧
      c10Resp.offer_name = c.offer.offer_name ∧
      c10Resp.offer_price = c.price ∧
      c10Resp.opt_profit = c.value ∧
      (∀ c' ∈ l₁, c'.value < c.value) ∧
      ∀ c' ∈ cands expOne lowSolver c10Req, c'.value ≤ c.value) :=
  ⟨c10_ok, optimize_offers_first_strict_max expOne lowSolver c10Req c10Resp c10_ok⟩

/-- Witness for C5 on the concrete request `retReq`. -/
theorem retention_offer_never_selected_witness :
    ((bestAcc expOne lowSolver retReq).best = some (retModel, retOffer, 3) ∧
      retModel.model_category = ModelCategory.retention) ∧
    (retOffer.price < retReq.copcar ∧
      ∀ m' o', m'.model_category = ModelCategory.retention →
        retReq.copcar ≤ o'.price →
        candidateOf expOne lowSolver retReq.copcar m' o' = none) :=
  ⟨⟨ret_best, rfl⟩,
    retention_offer_never_selected expOne lowSolver retReq retModel retOffer 3
      ret_best rfl⟩

/-- Witness for C6 on the concrete request `retReq`. -/
theorem optimize_offers_bounds_containment_witness :
    (retReq.Valid ∧ SolverRespectsBounds lowSolver ∧
      expOne.optimize_offers lowSolver retReq = Except.ok retResp) ∧
    (∃ m ∈ retReq.models, ∃ o ∈ m.available_offers,
      retResp.model_name = m.model_name ∧ retResp.offer_name = o.offer_name ∧
      retResp.actual_offer_price = o.price ∧
      (priceBounds m.model_category retReq.copcar o.price).1 ≤
        retResp.offer_price ∧
      retResp.offer_price ≤
        (priceBounds m.model_category retReq.copcar o.price).2 ∧
      0 < retResp.offer_price ∧ retResp.offer_price ≤ retResp.copcar) :=
  ⟨⟨retReq_valid, lowSolver_respects, ret_ok⟩,
    optimize_offers_bounds_containment expOne lowSolver retReq retResp
      retReq_valid lowSolver_respects ret_ok⟩

/-- Witness for C7 on the concrete request `c10Req`. -/
theorem expected_profit_identity_witness :
    (expOne.optimize_offers lowSolver c10Req = Except.ok c10Resp) ∧
    c10Resp.expected_profit = c10Resp.copcar - c10Resp.actual_offer_price :=
  ⟨c10_ok, expected_profit_identity expOne lowSolver c10Req c10Resp c10_ok⟩

/-- Witness for C8 on the concrete request `c10Req`. -/
theorem optimize_offers_fails_iff_no_candidate_witness :
    (c10Req.Valid ∧ SolverRespectsBounds lowSolver) ∧
    ((expOne.optimize_offers lowSolver c10Req = Except.error noSuitableOfferMsg ↔
        cands expOne lowSolver c10Req = []) ∧
      (cands expOne lowSolver c10Req ≠ [] →
        ∃ resp, expOne.optimize_offers lowSolver c10Req = Except.ok resp)) :=
  ⟨⟨c10Req_valid, lowSolver_respects⟩,
    optimize_offers_fails_iff_no_candidate expOne lowSolver c10Req
      c10Req_valid lowSolver_respects⟩

/-- Witness for C9 on the concrete request `c10Req`. -/
theorem optimize_offers_deterministic_witness :
    (c10Req = c10Req) ∧
    (expOne.optimize_offers lowSolver c10Req =
        expOne.optimize_offers lowSolver c10Req ∧
      ∀ resp₁ resp₂, expOne.optimize_offers lowSolver c10Req = Except.ok resp₁ →
        expOne.optimize_offers lowSolver c10Req = Except.ok resp₂ →
        resp₁.model_name = resp₂.model_name ∧
        resp₁.offer_name = resp₂.offer_name ∧
        resp₁.offer_price = resp₂.offer_price) :=
  ⟨rfl, optimize_offers_deterministic expOne lowSolver c10Req c10Req rfl⟩
